import Mathlib

/-!
Verification of the xDS resolver (xds-resolver.ts) and the resolving call
(resolving-call.ts) of the grpc-node repository, against its natural-language
specification.  All definitions are shallow embeddings of the TypeScript
source; theorems settle the frozen claims C1..C10.

Strings are modelled as Lean `String`; TypeScript's `length`, `startsWith`,
`endsWith`, `substring` are modelled on the character list (`String.data`),
which agrees with JavaScript on BMP text.
-/

namespace GrpcXds

/-! ### String helpers (models of the JavaScript string operations used) -/

/-- `s.length` of JavaScript, as a character count. -/
def strLen (s : String) : Nat := s.data.length

/-- `s.indexOf(c) >= 0` of JavaScript, i.e. the string contains the character. -/
def strHasChar (s : String) (c : Char) : Bool := s.data.contains c

/-- `s.startsWith(pre)` of JavaScript. -/
def strStartsWith (s pre : String) : Bool := pre.data.isPrefixOf s.data

/-- `s.endsWith(post)` of JavaScript. -/
def strEndsWith (s post : String) : Bool := post.data.isSuffixOf s.data

/-- `s.substring(1)` of JavaScript: drop the first character. -/
def strDropFirst (s : String) : String := ⟨s.data.drop 1⟩

/-- `s.substring(0, s.length - 1)` of JavaScript: drop the last character. -/
def strDropLast (s : String) : String := ⟨s.data.dropLast⟩

/-- `values.join(',')` of JavaScript. -/
def joinComma (vs : List String) : String := ⟨List.intercalate [','] (vs.map (·.data))⟩

/-! ### Match types and domain pattern classification (xds-resolver.ts lines 49-89) -/

/-- `enum MatchType` of xds-resolver.ts; better match type has smaller value. -/
inductive MatchType
  | EXACT_MATCH
  | SUFFIX_MATCH
  | PREFIX_MATCH
  | UNIVERSE_MATCH
  | INVALID_MATCH
deriving DecidableEq, Repr

/-- The numeric value of the TypeScript enum member (declaration order). -/
def MatchType.rank : MatchType → Nat
  | .EXACT_MATCH => 0
  | .SUFFIX_MATCH => 1
  | .PREFIX_MATCH => 2
  | .UNIVERSE_MATCH => 3
  | .INVALID_MATCH => 4

/-- `domainPatternMatchType` of xds-resolver.ts. -/
def domainPatternMatchType (domainPattern : String) : MatchType :=
  if strLen domainPattern = 0 then .INVALID_MATCH
  else if strHasChar domainPattern '*' = false then .EXACT_MATCH
  else if domainPattern = "*" then .UNIVERSE_MATCH
  else if strStartsWith domainPattern "*" then .SUFFIX_MATCH
  else if strEndsWith domainPattern "*" then .PREFIX_MATCH
  else .INVALID_MATCH

/-- `domainMatch` of xds-resolver.ts. -/
def domainMatch (matchType : MatchType) (domainPattern expectedHostName : String) : Bool :=
  match matchType with
  | .EXACT_MATCH => expectedHostName = domainPattern
  | .SUFFIX_MATCH => strEndsWith expectedHostName (strDropFirst domainPattern)
  | .PREFIX_MATCH => strStartsWith expectedHostName (strDropLast domainPattern)
  | .UNIVERSE_MATCH => true
  | .INVALID_MATCH => false

/-! ### xDS route data model (generated proto output types, as used by the source) -/

/-- `header_match_specifier` oneof of `HeaderMatcher__Output`.  `unset` models the
case reached by the `default:` branch of the switch (prevented by validation). -/
inductive HeaderMatchSpecifier
  | exact_match (value : String)
  | safe_regex_match (regex : String)
  | range_match (start stop : Int)
  | present_match
  | prefix_match (value : String)
  | suffix_match (value : String)
  | unset
deriving DecidableEq, Repr

/-- `HeaderMatcher__Output` fields used by the source. -/
structure HeaderMatcher where
  name : String
  invert_match : Bool
  header_match_specifier : HeaderMatchSpecifier
deriving DecidableEq, Repr

/-- `path_specifier` oneof of `RouteMatch__Output` (constructor names adjusted
because `prefix` is reserved in Lean): `byPrefix` is the `prefix` member,
`byPath` is `path`, `bySafeRegex` is `safe_regex`. -/
inductive PathSpecifier
  | byPrefix (s : String)
  | byPath (s : String)
  | bySafeRegex (re : String)
  | unset
deriving DecidableEq, Repr

/-- `RouteMatch__Output` fields used by the source. -/
structure RouteMatch where
  path_specifier : PathSpecifier
  case_sensitive : Option Bool
  headers : List HeaderMatcher
deriving DecidableEq, Repr

/-- One element of `weighted_clusters.clusters`; `weight` models
`clusterWeight.weight?.value` (a missing wrapper reads as absent). -/
structure ClusterWeight where
  name : String
  weight : Option Nat
deriving DecidableEq, Repr

/-- `cluster_specifier` oneof of the route action.  `total_weight` models
`weighted_clusters.total_weight?.value`. -/
inductive ClusterSpecifier
  | cluster (name : String)
  | weighted_clusters (clusters : List ClusterWeight) (total_weight : Option Nat)
  | cluster_header
deriving DecidableEq, Repr

/-- The `route` (RouteAction) field of a Route, as used by the source. -/
structure RouteAction where
  cluster_specifier : ClusterSpecifier
deriving DecidableEq, Repr

/-- A `Route__Output`: `rmatch` is the source's `route.match` field and
`rroute` is the source's `route.route` field (`match` is reserved in Lean). -/
structure Route where
  rmatch : RouteMatch
  rroute : RouteAction
deriving DecidableEq, Repr

/-- `VirtualHost__Output` fields used by the source. -/
structure VirtualHost where
  domains : List String
  routes : List Route
deriving DecidableEq, Repr

/-- `RouteConfiguration__Output` fields used by the source. -/
structure RouteConfiguration where
  virtual_hosts : List VirtualHost
deriving DecidableEq, Repr

/-! ### `findVirtualHostForDomain` (xds-resolver.ts lines 91-120)

The imperative double loop is embedded as structural recursion over the
virtual host list and each host's pattern list, threading the mutable locals
`targetVhost`, `bestMatchType`, `longestMatch` as a state record.  The
two-level `break` on an exact match is the early return in each scan
function (the loops are only ever entered with a non-exact best state). -/

structure ScanState where
  targetVhost : Option VirtualHost
  bestMatchType : MatchType
  longestMatch : Nat
deriving DecidableEq, Repr

/-- The body of the inner `for (const domainPattern of virtualHost.domains)` loop. -/
def scanStep (domain : String) (virtualHost : VirtualHost) (s : ScanState)
    (domainPattern : String) : ScanState :=
  let matchType := domainPatternMatchType domainPattern
  -- If we already have a match of a better type, skip this one
  if matchType.rank > s.bestMatchType.rank then s
  -- If we already have a longer match of the same type, skip this one
  else if matchType = s.bestMatchType ∧ strLen domainPattern ≤ s.longestMatch then s
  else if domainMatch matchType domainPattern domain then
    ⟨some virtualHost, matchType, strLen domainPattern⟩
  else s

/-- The inner pattern loop, with its `break` once an exact match is recorded. -/
def scanPatterns (domain : String) (virtualHost : VirtualHost) :
    List String → ScanState → ScanState
  | [], s => s
  | p :: rest, s =>
    let s' := scanStep domain virtualHost s p
    if s'.bestMatchType = .EXACT_MATCH then s' else scanPatterns domain virtualHost rest s'

/-- The outer virtual-host loop, with its `break` once an exact match is recorded. -/
def scanVhosts (domain : String) : List VirtualHost → ScanState → ScanState
  | [], s => s
  | vh :: rest, s =>
    let s' := scanPatterns domain vh vh.domains s
    if s'.bestMatchType = .EXACT_MATCH then s' else scanVhosts domain rest s'

/-- `findVirtualHostForDomain` of xds-resolver.ts. -/
def findVirtualHostForDomain (virtualHostList : List VirtualHost) (domain : String) :
    Option VirtualHost :=
  (scanVhosts domain virtualHostList ⟨none, .INVALID_MATCH, 0⟩).targetVhost

/-! ### Specification-side domain matcher (for claim C5)

Modelled from the spec's words: scan every (virtual host, pattern) candidate
in first-seen order and keep the strictly better candidate, where a matching
candidate is better when its match type has a smaller rank
(exact > suffix > prefix > universal, invalid never matches), or, within the
same match type, when its character length is strictly greater (so ties keep
the first-seen candidate).  No short-circuit: the whole list is scanned. -/

/-- All (virtual host, domain pattern) candidates in first-seen order. -/
def specCandidates : List VirtualHost → List (VirtualHost × String)
  | [] => []
  | vh :: rest => vh.domains.map (fun p => (vh, p)) ++ specCandidates rest

/-- One spec-side selection step: replace the best candidate exactly when the
new candidate matches and is strictly better. -/
def specStep (domain : String) (s : ScanState) (c : VirtualHost × String) : ScanState :=
  let mt := domainPatternMatchType c.2
  if domainMatch mt c.2 domain = true ∧
      (mt.rank < s.bestMatchType.rank ∨ (mt = s.bestMatchType ∧ s.longestMatch < strLen c.2))
  then ⟨some c.1, mt, strLen c.2⟩
  else s

/-- Spec-side best-match selection over all candidates, no short-circuit. -/
def specBestVirtualHost (virtualHostList : List VirtualHost) (domain : String) :
    Option VirtualHost :=
  ((specCandidates virtualHostList).foldl (specStep domain)
    ⟨none, .INVALID_MATCH, 0⟩).targetVhost

/-- Auxiliary invariant: whenever the best match recorded so far is exact, the
recorded longest match length is the length of the target domain. -/
def ExactLenInv (domain : String) (s : ScanState) : Prop :=
  s.bestMatchType = .EXACT_MATCH → s.longestMatch = strLen domain

/-- The condition under which a spec-side step replaces the current best. -/
def SpecCond (domain : String) (s : ScanState) (c : VirtualHost × String) : Prop :=
  domainMatch (domainPatternMatchType c.2) c.2 domain = true ∧
    ((domainPatternMatchType c.2).rank < s.bestMatchType.rank ∨
      (domainPatternMatchType c.2 = s.bestMatchType ∧ s.longestMatch < strLen c.2))

instance specCondDecidable (domain : String) (s : ScanState) (c : VirtualHost × String) :
    Decidable (SpecCond domain s c) := by
  unfold SpecCond
  infer_instance

/-! ### Header matcher predicate (`getPredicateForHeaderMatcher`, lines 126-184)

Call metadata is modelled as the map from a header name to the list of its
values (`metadata.get(name)`).  RE2 regular-expression evaluation is not
re-implemented; the compiled regex test is an abstract parameter
`regexTest pattern value` receiving the anchored pattern string the source
builds.  The `numberRegex` test (`^-?\d+$`) and the `BigInt` conversion are
implemented concretely. -/

/-- Call metadata: header name to value list, as read by `metadata.get`. -/
abbrev Metadata : Type := String → List String

/-- An ASCII digit, as matched by `\d`. -/
def isAsciiDigit (c : Char) : Bool := '0' ≤ c ∧ c ≤ '9'

/-- The test `numberRegex.test(value)` with `numberRegex = /^-?\d+$/u`. -/
def numberShape (s : String) : Bool :=
  match s.data with
  | '-' :: rest => rest ≠ [] ∧ rest.all isAsciiDigit
  | cs => cs ≠ [] ∧ cs.all isAsciiDigit

/-- Decimal digits to a natural number. -/
def digitsToNat (cs : List Char) : Nat :=
  cs.foldl (fun a c => a * 10 + (c.toNat - '0'.toNat)) 0

/-- `BigInt(value)` for a string accepted by `numberRegex`. -/
def strToInt (s : String) : Int :=
  match s.data with
  | '-' :: rest => -(digitsToNat rest : Int)
  | cs => (digitsToNat cs : Int)

/-- The `valueChecker` selected by the switch on `header_match_specifier`;
`none` corresponds to the `default:` branch, which returns the constant-false
predicate directly (before any invert wrapping). -/
def headerMatchValueChecker (regexTest : String → String → Bool)
    (headerMatch : HeaderMatcher) : Option (String → Bool) :=
  match headerMatch.header_match_specifier with
  | .exact_match v => some (fun value => value = v)
  | .safe_regex_match re => some (fun value => regexTest ("^" ++ re ++ "$") value)
  | .range_match start stop => some (fun value =>
      if numberShape value = false then false
      else
        let numberValue := strToInt value
        decide (start ≤ numberValue ∧ numberValue < stop))
  | .present_match => some (fun _ => true)
  | .prefix_match v => some (fun value => strStartsWith value v)
  | .suffix_match v => some (fun value => strEndsWith value v)
  | .unset => none

/-- `getPredicateForHeaderMatcher` of xds-resolver.ts. -/
def getPredicateForHeaderMatcher (regexTest : String → String → Bool)
    (headerMatch : HeaderMatcher) : String → Metadata → Bool :=
  match headerMatchValueChecker regexTest headerMatch with
  | none =>
    -- Should be prevented by validation rules
    fun _ _ => false
  | some valueChecker =>
    let headerMatcher : String → Metadata → Bool := fun _ metadata =>
      if strEndsWith headerMatch.name "-bin" then false
      else
        let ovalue : Option String :=
          if headerMatch.name = "content-type" then some "application/grpc"
          else
            let valueArray := metadata headerMatch.name
            if valueArray.length = 0 then none
            else some (joinComma valueArray)
        match ovalue with
        | none => false
        | some value => valueChecker value
    if headerMatch.invert_match then
      fun methodName metadata => !(headerMatcher methodName metadata)
    else headerMatcher

/-! ### Weighted-cluster selection (`handleRouteConfig`, lines 356-374)

The cumulative-weight table (`clusterChoices`) and the selection loop of
`routeAction` are embedded as pure functions; the uniform draw
`Math.random() * totalWeight` is modelled as an arbitrary rational in
`[0, totalWeight)`. -/

/-- The loop building `clusterChoices`: a running `lastNumerator` cumulative sum. -/
def buildChoicesAux : List ClusterWeight → Nat → List (String × Nat)
  | [], _ => []
  | clusterWeight :: rest, lastNumerator =>
    let numerator := lastNumerator + (clusterWeight.weight.getD 0)
    (clusterWeight.name, numerator) :: buildChoicesAux rest numerator

/-- `clusterChoices`, the weighted choices represented as a CDF. -/
def buildClusterChoices (clusters : List ClusterWeight) : List (String × Nat) :=
  buildChoicesAux clusters 0

/-- `total_weight?.value ?? 100`. -/
def effectiveTotalWeight (total_weight : Option Nat) : Nat := total_weight.getD 100

/-- The sum of `clusterWeight.weight?.value ?? 0` over the declared clusters. -/
def sumWeights (clusters : List ClusterWeight) : Nat :=
  (clusters.map (fun cw => cw.weight.getD 0)).sum

/-- The selection loop of `routeAction`: return the first cluster whose
cumulative numerator exceeds the drawn value, or fall through to `''`. -/
def selectWeightedCluster : List (String × Nat) → ℚ → String
  | [], _ =>
    -- This should be prevented by the validation rules
    ""
  | choice :: rest, randomNumber =>
    if randomNumber < (choice.2 : ℚ) then choice.1 else selectWeightedCluster rest randomNumber

/-! ### The XdsResolver state machine (xds-resolver.ts lines 237-463)

The resolver's mutable fields that the claims concern are collected in
`ResolverState`; calls to the resolver listener (`onSuccessfulResolution`,
`onError`) are returned as an event list.  The module-level flag
`GRPC_XDS_EXPERIMENTAL_ROUTING` and the fixed `this.target.path` are passed
as parameters.  The JavaScript `Map` of cluster ref-counts is modelled as an
insertion-ordered association list with unique keys. -/

/-- The value stored in `clusterRefcounts`: `{inLastConfig, refCount}`. -/
structure ClusterRef where
  inLastConfig : Bool
  refCount : Int
deriving DecidableEq, Repr

/-- The `clusterRefcounts` map, insertion ordered. -/
abbrev RefTable : Type := List (String × ClusterRef)

/-- `this.clusterRefcounts.get(name)`. -/
def lookupRef (t : RefTable) (name : String) : Option ClusterRef :=
  ((t : List (String × ClusterRef)).find? (fun p => p.1 = name)).map (·.2)

/-- Replace the value stored under `name` (used to model in-place mutation of
the object returned by `get`; keys are unique in a `Map`). -/
def updateRef (t : RefTable) (name : String) (f : ClusterRef → ClusterRef) : RefTable :=
  (t : List (String × ClusterRef)).map (fun p => if p.1 = name then (p.1, f p.2) else p)

/-- `this.clusterRefcounts.delete(name)`. -/
def removeRef (t : RefTable) (name : String) : RefTable :=
  (t : List (String × ClusterRef)).filter (fun p => p.1 ≠ name)

/-- The keys of the table, in insertion order (`this.clusterRefcounts.keys()`). -/
def refTableKeys (t : RefTable) : List String :=
  (t : List (String × ClusterRef)).map (·.1)

/-- The spec invariant on the ref-count table: every entry is in the current
table or has a strictly positive ref count, and no ref count is negative. -/
def RefInv (t : RefTable) : Prop :=
  ∀ p ∈ (t : List (String × ClusterRef)),
    (p.2.inLastConfig = true ∨ 0 < p.2.refCount) ∧ 0 ≤ p.2.refCount

/-- `refCluster` of xds-resolver.ts (lines 317-322): increment the ref count
of an existing entry; a missing entry is left untouched. -/
def refCluster (t : RefTable) (clusterName : String) : RefTable :=
  match lookupRef t clusterName with
  | none => t
  | some _ => updateRef t clusterName (fun e => { e with refCount := e.refCount + 1 })

/-- `Set.add` over a list representation: JavaScript `Set` keeps first-seen
insertion order and ignores duplicates. -/
def addUnique (l : List String) (name : String) : List String :=
  if name ∈ l then l else l ++ [name]

/-- The cluster names one route contributes to `allConfigClusters`
(`cluster_header` routes are skipped by `continue`). -/
def routeClusters (route : Route) : List String :=
  match route.rroute.cluster_specifier with
  | .cluster_header => []
  | .cluster c => [c]
  | .weighted_clusters cws _ => cws.map (·.name)

/-- `allConfigClusters`: all cluster names referenced by the surviving routes,
in first-seen order, deduplicated. -/
def collectClusters (routes : List Route) : List String :=
  routes.foldl (fun acc route => (routeClusters route).foldl addUnique acc) []

/-- The first reconciliation loop (lines 380-389): mark entries that are not
in this route config, and remove the ones with no references. -/
def markAndSweep (t : RefTable) (clusters : List String) : RefTable :=
  (t : List (String × ClusterRef)).filterMap (fun p =>
    if p.1 ∈ clusters then some p
    else if p.2.refCount = 0 then none
    else some (p.1, { p.2 with inLastConfig := false }))

/-- The second reconciliation loop body (lines 391-397): add or re-mark one
cluster from this route config. -/
def addCluster (t : RefTable) (name : String) : RefTable :=
  if (lookupRef t name).isSome then
    updateRef t name (fun e => { e with inLastConfig := true })
  else t ++ [(name, ⟨true, 0⟩)]

/-- The full reconciliation of the ref-count table against the cluster set of
a new route config. -/
def reconcile (t : RefTable) (clusters : List String) : RefTable :=
  clusters.foldl addCluster (markAndSweep t clusters)

/-- A call to the resolver listener. -/
inductive Event
  | onError (details : String)
  | onSuccess (clusters : List String)
deriving DecidableEq, Repr

/-- The detail string built by `reportResolutionError` (lines 455-463). -/
def resolutionErrorDetails (target reason : String) : String :=
  "xDS name resolution failed for target " ++ target ++ ": " ++ reason

/-- The resolver's mutable fields the claims concern. -/
structure ResolverState where
  hasReportedSuccess : Bool
  latestRouteConfig : Option RouteConfiguration
  table : RefTable
deriving DecidableEq, Repr

/-- The state of a freshly constructed resolver. -/
def initialResolverState : ResolverState :=
  { hasReportedSuccess := false, latestRouteConfig := none, table := [] }

/-- The non-experimental branch of `handleRouteConfig` (lines 433-451): the
first virtual host whose domain list contains the target verbatim, whose last
route has an empty `prefix` path rule and a truthy (non-empty) `cluster`,
yields that cluster.  (The source indexes `routes[length - 1]` unchecked; an
empty route list is treated as a discarded host here.) -/
def legacyRouteScan (target : String) : List VirtualHost → Option String
  | [] => none
  | vh :: rest =>
    if target ∈ vh.domains then
      match vh.routes.getLast? with
      | some route =>
        match route.rmatch.path_specifier, route.rroute.cluster_specifier with
        | .byPrefix p, .cluster c =>
          if p = "" ∧ c ≠ "" then some c else legacyRouteScan target rest
        | _, _ => legacyRouteScan target rest
      | none => legacyRouteScan target rest
    else legacyRouteScan target rest

/-- `handleRouteConfig` of xds-resolver.ts (lines 335-453), restricted to its
effect on the resolver state and the listener calls it makes.  Note that the
experimental-routing branch never sets `hasReportedSuccess`; only the legacy
branch does (line 444 of the source). -/
def handleRouteConfig (experimentalRouting : Bool) (target : String)
    (st : ResolverState) (routeConfig : RouteConfiguration) : ResolverState × List Event :=
  let st1 := { st with latestRouteConfig := some routeConfig }
  if experimentalRouting then
    match findVirtualHostForDomain routeConfig.virtual_hosts target with
    | none => (st1, [.onError (resolutionErrorDetails target "No matching route found")])
    | some virtualHost =>
      let allConfigClusters := collectClusters virtualHost.routes
      let table1 := reconcile st1.table allConfigClusters
      ({ st1 with table := table1 }, [.onSuccess (refTableKeys table1)])
  else
    match legacyRouteScan target routeConfig.virtual_hosts with
    | some cluster =>
      ({ st1 with hasReportedSuccess := true }, [.onSuccess [cluster]])
    | none => (st1, [.onError (resolutionErrorDetails target "No matching route found")])

/-- `unrefCluster` of xds-resolver.ts (lines 324-333): decrement the ref count
of an existing entry; when the entry has left the current table and its count
reaches 0 it is deleted and the last route config is re-applied.  (The source
dereferences `this.latestRouteConfig!`; in every state reaching the delete
branch it is set, the `none` arm is the degenerate completion.) -/
def unrefCluster (experimentalRouting : Bool) (target : String)
    (st : ResolverState) (clusterName : String) : ResolverState × List Event :=
  match lookupRef st.table clusterName with
  | none => (st, [])
  | some e =>
    let e' : ClusterRef := { e with refCount := e.refCount - 1 }
    if e'.inLastConfig = false ∧ e'.refCount = 0 then
      let st' := { st with table := removeRef st.table clusterName }
      match st'.latestRouteConfig with
      | some routeConfig => handleRouteConfig experimentalRouting target st' routeConfig
      | none => (st', [])
    else
      ({ st with table := updateRef st.table clusterName (fun _ => e') }, [])

/-- `onTransientError` of both the LDS and the RDS watcher (lines 285-292 and
302-308): a transient error only bubbles up as a failure if no success has
been reported yet for this target. -/
def onTransientError (target : String) (st : ResolverState) (errorDetails : String) :
    List Event :=
  if st.hasReportedSuccess = false then
    [.onError (resolutionErrorDetails target errorDetails)]
  else []

/-- Case-insensitive "mentions": the phrase occurs inside the text, comparing
characters lower-cased. -/
def lowerChars (s : String) : List Char := s.data.map Char.toLower

/-- `mentions hay phrase`: `phrase` occurs in `hay` up to letter case. -/
def mentions (hay phrase : String) : Prop :=
  List.IsInfix (lowerChars phrase) (lowerChars hay)

/-! ### ResolvingCall: deadline timer (resolving-call.ts lines 38-94, 138-148)

Deadlines are millisecond timestamps (`Infinity` allowed); `now` is the clock
reading at the moment the operation runs.  The single deadline timer is
modelled by `TimerState`; `runDeadlineTimer` always clears the previous timer
before deciding how to schedule expiry. -/

/-- A deadline: a finite millisecond timestamp or `Infinity`. -/
inductive Deadline
  | finite (t : Int)
  | infinity
deriving DecidableEq, Repr

/-- `minDeadline` of deadline.ts: the earlier of two deadlines. -/
def minDeadline : Deadline → Deadline → Deadline
  | .infinity, d => d
  | d, .infinity => d
  | .finite a, .finite b => .finite (min a b)

/-- The deadline timer: armed for a timestamp, scheduled for immediate expiry
on the next tick (`timeout <= 0`), or cleared with no rearm (`Infinity`). -/
inductive TimerState
  | armed (deadline : Int)
  | immediateExpiry
  | cleared
deriving DecidableEq, Repr

/-- `runDeadlineTimer` (lines 76-94): clear the previous timer; if the
deadline is finite, compute the relative timeout and either schedule the
expiry as soon as possible (timeout already ≤ 0) or arm a single-shot timer. -/
def runDeadlineTimer (now : Int) : Deadline → TimerState
  | .infinity => .cleared
  | .finite t => if t - now ≤ 0 then .immediateExpiry else .armed t

/-- The deadline-related constructor inputs (lines 43-66): `options.deadline`,
the parent deadline when `options.parentCall` is present, and whether
`options.flags` has `Propagate.DEADLINE` set. -/
structure CallOptions where
  deadline : Deadline
  parentDeadline : Option Deadline
  flagsPropagateDeadline : Bool
deriving DecidableEq, Repr

/-- The deadline-related per-call state: the effective deadline and the timer. -/
structure DeadlineState where
  deadline : Deadline
  timer : TimerState
deriving DecidableEq, Repr

/-- The constructor of `ResolvingCall` (lines 43-66), restricted to deadline
handling: take the options deadline, merge the parent deadline when
propagation is requested, then run the deadline timer once. -/
def constructCall (options : CallOptions) (now : Int) : DeadlineState :=
  let d0 := options.deadline
  let d1 := match options.parentDeadline with
    | some parentDeadline =>
      if options.flagsPropagateDeadline then minDeadline d0 parentDeadline else d0
    | none => d0
  { deadline := d1, timer := runDeadlineTimer now d1 }

/-- The method-config timeout merge inside `getConfig` (lines 138-148):
`configDeadline` is the already-computed `Date` value (now plus the config
timeout).  The source updates `this.deadline` with `minDeadline` and does not
call `runDeadlineTimer` here. -/
def mergeConfigTimeout (s : DeadlineState) (configDeadline : Option Int) : DeadlineState :=
  match configDeadline with
  | some t => { s with deadline := minDeadline s.deadline (.finite t) }
  | none => s

/-! ### ResolvingCall: operation buffering and replay (lines 152-173, 195-218) -/

/-- An outgoing call operation, as forwarded to the inner call.  Message
contents are abstracted to a numeric identifier. -/
inductive CallOp
  | startRead
  | sendMessage (msg : Nat)
  | halfClose
deriving DecidableEq, Repr

/-- The canonical replay position of an operation. -/
def opRank : CallOp → Nat
  | .startRead => 0
  | .sendMessage _ => 1
  | .halfClose => 2

/-- `readPending`, `pendingMessage`, `pendingHalfClose` of ResolvingCall. -/
structure BufferState where
  readPending : Bool
  pendingMessage : Option Nat
  pendingHalfClose : Bool
deriving DecidableEq, Repr

/-- The freshly constructed buffer state. -/
def initBuffer : BufferState := { readPending := false, pendingMessage := none, pendingHalfClose := false }

/-- The pre-bind (`this.child === null`) branches of `startRead`,
`sendMessageWithContext` and `halfClose` (lines 195-218). -/
def bufferOp (s : BufferState) : CallOp → BufferState
  | .startRead => { s with readPending := true }
  | .sendMessage m => { s with pendingMessage := some m }
  | .halfClose => { s with pendingHalfClose := true }

/-- The replay performed right after the inner call is created and started
(lines 164-172): forward the pending read, then the pending message, then the
pending half-close, each only if buffered. -/
def replayOps (s : BufferState) : List CallOp :=
  (if s.readPending then [CallOp.startRead] else []) ++
  (match s.pendingMessage with | some m => [CallOp.sendMessage m] | none => []) ++
  (if s.pendingHalfClose then [CallOp.halfClose] else [])

/-- Whether an operation is a read start. -/
def isStartReadOp : CallOp → Bool
  | .startRead => true
  | _ => false

/-- Whether an operation is a half close. -/
def isHalfCloseOp : CallOp → Bool
  | .halfClose => true
  | _ => false

/-- The message of the last send operation in a list, if any. -/
def lastMessageAux (ops : List CallOp) (acc : Option Nat) : Option Nat :=
  ops.foldl (fun acc op => match op with | .sendMessage m => some m | _ => acc) acc

/-- The message of the last send operation in a list, if any. -/
def lastMessage (ops : List CallOp) : Option Nat := lastMessageAux ops none

/-! ### ResolvingCall: ending (lines 96-105)

`outputStatus` is the single funnel every end-triggering event goes through
(resolver failure, inner-call status, cancellation, deadline expiry).  Status
watchers are identified by index; the two kinds of deliveries it makes are
returned as an event list in emission order. -/

/-- A terminal status, as passed to `outputStatus`. -/
structure StatusObject where
  code : Int
  details : String
deriving DecidableEq, Repr

/-- The write-once `ended` flag. -/
structure EndState where
  ended : Bool
deriving DecidableEq, Repr

/-- A delivery made while ending: a synchronous status-watcher call, or the
deferred (next tick) delivery of the status to the call's listener. -/
inductive EndEvent
  | watcherFired (watcherId : Nat) (s : StatusObject)
  | scheduledStatusDelivery (s : StatusObject)
deriving DecidableEq, Repr

/-- `outputStatus` (lines 96-105): on the first call, set `ended`, fire every
registered status watcher synchronously with the status, and schedule exactly
one deferred delivery to the listener; on any later call, do nothing. -/
def outputStatus (statusWatchers : List Nat) (st : EndState) (s : StatusObject) :
    EndState × List EndEvent :=
  if st.ended then (st, [])
  else
    ({ ended := true },
     statusWatchers.map (fun w => EndEvent.watcherFired w s) ++ [EndEvent.scheduledStatusDelivery s])

/-- A sequence of end-triggering events, each funnelled through
`outputStatus`, with all deliveries concatenated in order. -/
def runEnds (statusWatchers : List Nat) : EndState → List StatusObject → EndState × List EndEvent
  | st, [] => (st, [])
  | st, s :: rest =>
    let r := outputStatus statusWatchers st s
    let r' := runEnds statusWatchers r.1 rest
    (r'.1, r.2 ++ r'.2)

/-! ### Concrete inputs used by witnesses and counterexamples -/

/-- A route sending everything to the single cluster `cluster_a`. -/
def demoRoute : Route :=
  { rmatch := { path_specifier := .byPrefix "", case_sensitive := none, headers := [] },
    rroute := { cluster_specifier := .cluster "cluster_a" } }

/-- A virtual host for `svc.example.com` with the single demo route. -/
def demoVirtualHost : VirtualHost :=
  { domains := ["svc.example.com"], routes := [demoRoute] }

/-- A route config whose only virtual host matches `svc.example.com`. -/
def demoRouteConfig : RouteConfiguration := { virtual_hosts := [demoVirtualHost] }

/-- A route config with no virtual host matching `svc.example.com`. -/
def demoOtherConfig : RouteConfiguration :=
  { virtual_hosts := [{ domains := ["other.org"], routes := [demoRoute] }] }

/-- A resolver state with one live entry that has left the current table. -/
def demoResolverState : ResolverState :=
  { hasReportedSuccess := false,
    latestRouteConfig := some demoRouteConfig,
    table := [("cluster_old", ⟨false, 1⟩), ("cluster_a", ⟨true, 0⟩)] }

/-- The weighted clusters `{A: 30, B: 70}` of the spec's testable property. -/
def demoWeighted : List ClusterWeight := [⟨"A", some 30⟩, ⟨"B", some 70⟩]

/-- A header rule on a binary header with the invert flag set. -/
def demoBinHeaderMatcher : HeaderMatcher :=
  { name := "foo-bin", invert_match := true, header_match_specifier := .exact_match "x" }

/-- Metadata with no entries at all. -/
def emptyMetadata : Metadata := fun _ => []

/-- A virtual host whose single pattern matches `a.example.com` exactly. -/
def demoExactVhost : VirtualHost := { domains := ["a.example.com"], routes := [] }

/-- A virtual host with a suffix pattern also matching `a.example.com`. -/
def demoSuffixVhost : VirtualHost := { domains := ["*.example.com"], routes := [] }

/-! ## Theorems -/

/-! ### Claim C1 (code bug: transient errors after a reported success) -/

/-- C1: the claim (and the source's own comment at `onTransientError`) says a
transient error must be swallowed once a successful resolution has been
reported.  The experimental-routing branch of `handleRouteConfig` reports a
success (`onSuccessfulResolution`) but never sets `hasReportedSuccess`, so a
subsequent transient error is still surfaced as a resolution failure: on this
concrete run a success event is emitted, the flag stays `false`, and the
transient error produces an `onError` delivery. -/
theorem c1_transient_error_after_success :
    (handleRouteConfig true "svc.example.com" initialResolverState demoRouteConfig).2 =
      [Event.onSuccess ["cluster_a"]] ∧
    (handleRouteConfig true "svc.example.com" initialResolverState demoRouteConfig).1.hasReportedSuccess
      = false ∧
    onTransientError "svc.example.com"
        (handleRouteConfig true "svc.example.com" initialResolverState demoRouteConfig).1
        "connection refused" =
      [Event.onError (resolutionErrorDetails "svc.example.com" "connection refused")] := by
  refine ⟨by decide, by decide, by decide⟩

/-! ### Claim C3 (binary-suffix header rules and the invert flag) -/

/-- C3 counterexample: a rule on the header `foo-bin` with the invert flag set
returns `true` (not `false`) on an arbitrary input, because the source applies
the invert wrapper around the whole matcher, including the `-bin`
short-circuit. -/
theorem c3_counterexample :
    getPredicateForHeaderMatcher (fun _ _ => false) demoBinHeaderMatcher "/svc/method"
      emptyMetadata = true := by
  decide

/-- C3 as amended: for a rule whose header name ends in `-bin` and whose match
specifier is supported, the compiled predicate is the constant value of the
invert flag (false without invert, true with invert); with the
validation-prevented unset specifier it is constant false regardless of
invert. -/
theorem c3_bin_header_rule (regexTest : String → String → Bool) (headerMatch : HeaderMatcher)
    (methodName : String) (metadata : Metadata)
    (hbin : strEndsWith headerMatch.name "-bin" = true) :
    getPredicateForHeaderMatcher regexTest headerMatch methodName metadata =
      (match headerMatch.header_match_specifier with
       | .unset => false
       | _ => headerMatch.invert_match) := by
  obtain ⟨name, invert, spec⟩ := headerMatch
  cases spec <;>
    simp only [getPredicateForHeaderMatcher, headerMatchValueChecker] <;>
    cases invert <;>
    simp [hbin]

/-- C3 witness: the amended statement evaluated at the concrete inverted
`foo-bin` exact-match rule. -/
theorem c3_witness :
    strEndsWith demoBinHeaderMatcher.name "-bin" = true ∧
    getPredicateForHeaderMatcher (fun _ _ => false) demoBinHeaderMatcher "/svc/method"
        emptyMetadata =
      (match demoBinHeaderMatcher.header_match_specifier with
       | .unset => false
       | _ => demoBinHeaderMatcher.invert_match) :=
  ⟨by decide,
   c3_bin_header_rule (fun _ _ => false) demoBinHeaderMatcher "/svc/method" emptyMetadata
     (by decide)⟩

/-! ### Claim C4 (deadline timer rearming) -/

/-- C4 counterexample: merging a method-config timeout changes the effective
deadline (1000 becomes 500) but the deadline timer is left armed for the old
deadline — `getConfig` never calls `runDeadlineTimer` after the merge — so the
timer does not match what rearming against the new deadline would produce. -/
theorem c4_counterexample :
    (mergeConfigTimeout (constructCall ⟨.finite 1000, none, false⟩ 0) (some 500)).deadline ≠
      (constructCall ⟨.finite 1000, none, false⟩ 0).deadline ∧
    (mergeConfigTimeout (constructCall ⟨.finite 1000, none, false⟩ 0) (some 500)).timer =
      (constructCall ⟨.finite 1000, none, false⟩ 0).timer ∧
    (mergeConfigTimeout (constructCall ⟨.finite 1000, none, false⟩ 0) (some 500)).timer ≠
      runDeadlineTimer 0
        (mergeConfigTimeout (constructCall ⟨.finite 1000, none, false⟩ 0) (some 500)).deadline := by
  decide

/-- C4 as amended: at construction (including parent-deadline propagation) the
timer is armed consistently with the effective deadline — cleared for an
infinite deadline, scheduled as soon as possible for a deadline already past,
armed single-shot otherwise — while merging a method-config timeout updates
the effective deadline to the earlier of the two but leaves the timer
untouched. -/
theorem c4_deadline_timer (options : CallOptions) (now t : Int) (s : DeadlineState)
    (configDeadline : Option Int) :
    ((constructCall options now).timer =
      runDeadlineTimer now (constructCall options now).deadline) ∧
    ((constructCall options now).deadline = .finite t →
      (t ≤ now → (constructCall options now).timer = .immediateExpiry) ∧
      (now < t → (constructCall options now).timer = .armed t)) ∧
    (mergeConfigTimeout s configDeadline).timer = s.timer ∧
    (∀ u, configDeadline = some u →
      (mergeConfigTimeout s configDeadline).deadline = minDeadline s.deadline (.finite u)) := by
  refine ⟨rfl, ?_, ?_, ?_⟩
  · intro hd
    have h : (constructCall options now).timer = runDeadlineTimer now (.finite t) := by
      rw [show (constructCall options now).timer =
        runDeadlineTimer now (constructCall options now).deadline from rfl, hd]
    constructor
    · intro hle
      rw [h]; simp only [runDeadlineTimer]
      rw [if_pos (by omega)]
    · intro hlt
      rw [h]; simp only [runDeadlineTimer]
      rw [if_neg (by omega)]
  · cases configDeadline <;> rfl
  · intro u hu; subst hu; rfl

/-- C4 witness: a child call with an option deadline of 1000 and a propagated
parent deadline of 700 ends up with the timer armed for 700. -/
theorem c4_witness :
    (constructCall ⟨.finite 1000, some (.finite 700), true⟩ 0).timer = TimerState.armed 700 :=
  ((c4_deadline_timer ⟨.finite 1000, some (.finite 700), true⟩ 0 700
      ⟨.finite 0, .cleared⟩ none).2.1 (by decide)).2 (by decide)

/-! ### Claim C6 (replay order of buffered operations) -/

/-- `readPending` after buffering a sequence of operations. -/
theorem foldl_buffer_read (ops : List CallOp) (s : BufferState) :
    (ops.foldl bufferOp s).readPending = (s.readPending || ops.any isStartReadOp) := by
  induction ops generalizing s with
  | nil => simp
  | cons op rest ih =>
    cases op <;> simp [bufferOp, ih, isStartReadOp]

/-- `pendingMessage` after buffering a sequence of operations. -/
theorem foldl_buffer_msg (ops : List CallOp) (s : BufferState) :
    (ops.foldl bufferOp s).pendingMessage = lastMessageAux ops s.pendingMessage := by
  induction ops generalizing s with
  | nil => rfl
  | cons op rest ih =>
    cases op <;> simp [bufferOp, ih, lastMessageAux]

/-- `pendingHalfClose` after buffering a sequence of operations. -/
theorem foldl_buffer_hc (ops : List CallOp) (s : BufferState) :
    (ops.foldl bufferOp s).pendingHalfClose = (s.pendingHalfClose || ops.any isHalfCloseOp) := by
  induction ops generalizing s with
  | nil => simp
  | cons op rest ih =>
    cases op <;> simp [bufferOp, ih, isHalfCloseOp]

/-- The replay list of any buffer state is strictly ordered by the canonical
rank (read start, message, half close) and contains exactly the pending
operations. -/
theorem replay_props (s : BufferState) :
    List.Chain' (fun a b => opRank a < opRank b) (replayOps s) ∧
    (CallOp.startRead ∈ replayOps s ↔ s.readPending = true) ∧
    (∀ m, CallOp.sendMessage m ∈ replayOps s ↔ s.pendingMessage = some m) ∧
    (CallOp.halfClose ∈ replayOps s ↔ s.pendingHalfClose = true) := by
  obtain ⟨r, pm, hc⟩ := s
  cases r <;> cases pm <;> cases hc <;>
    simp [replayOps, opRank, eq_comm]

/-- C6: after any sequence of pre-bind buffered operations, the replay onto
the inner call emits operations in strictly increasing canonical order —
read start, then the single buffered message, then half close, each at most
once and never in any other order — and emits exactly the operations that
were buffered (with the last buffered message winning). -/
theorem c6_replay_order (ops : List CallOp) :
    List.Chain' (fun a b => opRank a < opRank b) (replayOps (ops.foldl bufferOp initBuffer)) ∧
    (CallOp.startRead ∈ replayOps (ops.foldl bufferOp initBuffer) ↔
      ops.any isStartReadOp = true) ∧
    (∀ m, CallOp.sendMessage m ∈ replayOps (ops.foldl bufferOp initBuffer) ↔
      lastMessage ops = some m) ∧
    (CallOp.halfClose ∈ replayOps (ops.foldl bufferOp initBuffer) ↔
      ops.any isHalfCloseOp = true) := by
  have h := replay_props (ops.foldl bufferOp initBuffer)
  refine ⟨h.1, ?_, ?_, ?_⟩
  · rw [h.2.1, foldl_buffer_read]; simp [initBuffer]
  · intro m; rw [h.2.2.1 m, foldl_buffer_msg]; simp [initBuffer, lastMessage]
  · rw [h.2.2.2, foldl_buffer_hc]; simp [initBuffer]

/-! ### Claim C7 (ending is idempotent and single-shot) -/

/-- Once ended, any further sequence of end attempts changes nothing and
delivers nothing. -/
theorem runEnds_ended (statusWatchers : List Nat) (ss : List StatusObject) :
    runEnds statusWatchers ⟨true⟩ ss = (⟨true⟩, []) := by
  induction ss with
  | nil => rfl
  | cons s rest ih => simp [runEnds, outputStatus, ih]

/-- C7: for any sequence of end-triggering events on a not-yet-ended call,
only the first takes effect: it fires every registered status watcher
synchronously with the first status and schedules exactly one deferred
listener delivery of that status; all later attempts leave the ended state
unchanged and fire nothing (and on an already-ended call nothing ever fires). -/
theorem c7_end_single_shot :
    (∀ (statusWatchers : List Nat) (s : StatusObject) (rest : List StatusObject),
      runEnds statusWatchers ⟨false⟩ (s :: rest) =
        (⟨true⟩, statusWatchers.map (fun w => EndEvent.watcherFired w s) ++
          [EndEvent.scheduledStatusDelivery s])) ∧
    (∀ (statusWatchers : List Nat) (ss : List StatusObject),
      runEnds statusWatchers ⟨true⟩ ss = (⟨true⟩, [])) := by
  constructor
  · intro statusWatchers s rest
    simp [runEnds, outputStatus, runEnds_ended]
  · exact runEnds_ended

/-! ### Claim C10 (ref and unref of an absent cluster name are no-ops) -/

/-- C10: calling `refCluster` or `unrefCluster` with a cluster name that has
no entry in the ref-count table leaves the table (indeed the whole resolver
state) unchanged, emits nothing, and in particular never creates an entry,
never produces a negative count, and never re-applies the last routing
table.  Instantiated at the empty cluster name by the witness, this covers
the weighted-cluster fall-through and its commit callback. -/
theorem c10_absent_cluster_noop (experimentalRouting : Bool) (target : String)
    (st : ResolverState) (clusterName : String)
    (habs : lookupRef st.table clusterName = none) :
    refCluster st.table clusterName = st.table ∧
    unrefCluster experimentalRouting target st clusterName = (st, []) := by
  constructor
  · simp [refCluster, habs]
  · simp [unrefCluster, habs]

/-- C10 witness: the absent empty cluster name, as produced by the
weighted-cluster fall-through, on a state with live entries. -/
theorem c10_witness :
    lookupRef demoResolverState.table "" = none ∧
    (refCluster demoResolverState.table "" = demoResolverState.table ∧
     unrefCluster true "svc.example.com" demoResolverState "" = (demoResolverState, [])) :=
  ⟨by decide, c10_absent_cluster_noop true "svc.example.com" demoResolverState "" (by decide)⟩

/-! ### Claim C8 (weighted-cluster selection never falls through) -/

/-- The cumulative table built from a nonempty cluster list contains an entry
whose numerator is the starting value plus the total of all weights (namely
the last entry). -/
theorem buildChoicesAux_total (clusters : List ClusterWeight) (lastNumerator : Nat)
    (hne : clusters ≠ []) :
    ∃ c ∈ buildChoicesAux clusters lastNumerator,
      c.2 = lastNumerator + sumWeights clusters := by
  induction clusters generalizing lastNumerator with
  | nil => exact absurd rfl hne
  | cons cw rest ih =>
    rcases eq_or_ne rest [] with hr | hr
    · subst hr
      exact ⟨(cw.name, lastNumerator + cw.weight.getD 0), by simp [buildChoicesAux],
        by simp [sumWeights]⟩
    · obtain ⟨c, hc, hcv⟩ := ih (lastNumerator + cw.weight.getD 0) hr
      refine ⟨c, by simp [buildChoicesAux, hc], ?_⟩
      rw [hcv]
      simp [sumWeights]
      omega

/-- Every entry of the cumulative table carries a declared cluster name. -/
theorem buildChoicesAux_names (clusters : List ClusterWeight) (lastNumerator : Nat)
    (c : String × Nat) (hc : c ∈ buildChoicesAux clusters lastNumerator) :
    c.1 ∈ clusters.map (·.name) := by
  induction clusters generalizing lastNumerator with
  | nil => cases hc
  | cons cw rest ih =>
    rcases (List.mem_cons).1 hc with rfl | hc'
    · simp
    · rw [List.map_cons]
      exact List.mem_cons_of_mem _ (ih _ hc')

/-- The selection loop returns the first entry found by `find?`. -/
theorem selectWeightedCluster_find (choices : List (String × Nat)) (r : ℚ) (c : String × Nat)
    (h : choices.find? (fun c => decide (r < (c.2 : ℚ))) = some c) :
    selectWeightedCluster choices r = c.1 := by
  induction choices with
  | nil => simp at h
  | cons hd rest ih =>
    by_cases hlt : r < (hd.2 : ℚ)
    · rw [List.find?_cons_of_pos _ (by simpa using hlt)] at h
      obtain rfl : hd = c := by injection h
      simp [selectWeightedCluster, hlt]
    · rw [List.find?_cons_of_neg _ (by simpa using hlt)] at h
      simp [selectWeightedCluster, hlt, ih h]

/-- C8: when the declared per-cluster weights sum to at least the effective
total weight (`total_weight` or the default 100), every draw of a uniform
value in `[0, totalWeight)` returns through the loop: the first cluster in
declaration order whose cumulative bound exceeds the drawn value is found,
the selection returns exactly that cluster's (declared) name, and the `''`
fall-through is unreachable. -/
theorem c8_weighted_selection (clusters : List ClusterWeight) (total_weight : Option Nat)
    (r : ℚ) (hsum : effectiveTotalWeight total_weight ≤ sumWeights clusters)
    (hr0 : 0 ≤ r) (hr1 : r < (effectiveTotalWeight total_weight : ℚ)) :
    ∃ c, (buildClusterChoices clusters).find? (fun c => decide (r < (c.2 : ℚ))) = some c ∧
      selectWeightedCluster (buildClusterChoices clusters) r = c.1 ∧
      c.1 ∈ clusters.map (·.name) := by
  have hne : clusters ≠ [] := by
    intro h
    subst h
    have h0 : effectiveTotalWeight total_weight = 0 := by
      simpa [sumWeights] using hsum
    rw [h0] at hr1
    simp at hr1
    exact absurd hr1 (not_lt.2 hr0)
  obtain ⟨clast, hmem, hval⟩ := buildChoicesAux_total clusters 0 hne
  have hsat : r < (clast.2 : ℚ) := by
    rw [hval]
    calc r < (effectiveTotalWeight total_weight : ℚ) := hr1
    _ ≤ ((0 + sumWeights clusters : Nat) : ℚ) := by
          push_cast
          simpa using (Nat.cast_le (α := ℚ)).2 hsum
  have hsome : ((buildClusterChoices clusters).find?
      (fun c => decide (r < (c.2 : ℚ)))).isSome := by
    rw [List.find?_isSome]
    exact ⟨clast, hmem, by simpa using hsat⟩
  obtain ⟨c, hc⟩ := Option.isSome_iff_exists.1 hsome
  exact ⟨c, hc, selectWeightedCluster_find _ _ _ hc,
    buildChoicesAux_names clusters 0 c (List.mem_of_find?_eq_some hc)⟩

/-- C8 witness: weights `{A: 30, B: 70}`, default total weight 100, draw 50. -/
theorem c8_witness :
    ∃ c, (buildClusterChoices demoWeighted).find?
        (fun c => decide ((50 : ℚ) < (c.2 : ℚ))) = some c ∧
      selectWeightedCluster (buildClusterChoices demoWeighted) 50 = c.1 ∧
      c.1 ∈ demoWeighted.map (·.name) :=
  c8_weighted_selection demoWeighted none 50 (by decide) (by norm_num)
    (by norm_num [effectiveTotalWeight])

/-! ### Claim C9 (no matching virtual host: error reported, ref-counts untouched) -/

/-- `String.append` on the character lists. -/
theorem strData_append (a b : String) : (a ++ b).data = a.data ++ b.data := rfl

/-- C9: when the received routing table has no virtual host matching the
target, `handleRouteConfig` reports exactly one resolution failure whose
detail mentions "no matching route found" (the source emits
`No matching route found`) and stops; the cluster ref-count table is left
completely unchanged. -/
theorem c9_no_match_frame (target : String) (st : ResolverState) (cfg : RouteConfiguration)
    (hnone : findVirtualHostForDomain cfg.virtual_hosts target = none) :
    handleRouteConfig true target st cfg =
      ({ st with latestRouteConfig := some cfg },
        [Event.onError (resolutionErrorDetails target "No matching route found")]) ∧
    (handleRouteConfig true target st cfg).1.table = st.table ∧
    mentions (resolutionErrorDetails target "No matching route found")
      "no matching route found" := by
  have h1 : handleRouteConfig true target st cfg =
      ({ st with latestRouteConfig := some cfg },
        [Event.onError (resolutionErrorDetails target "No matching route found")]) := by
    simp [handleRouteConfig, hnone]
  refine ⟨h1, by rw [h1], ?_⟩
  refine ⟨lowerChars "xDS name resolution failed for target " ++ lowerChars target ++
    lowerChars ": ", [], ?_⟩
  have hlow : lowerChars "no matching route found" = lowerChars "No matching route found" := by
    decide
  simp only [resolutionErrorDetails, lowerChars, strData_append, List.map_append] at *
  rw [hlow]
  simp [List.append_assoc]

/-- C9 witness: a routing table whose only virtual host is for `other.org`,
received by a resolver targeting `svc.example.com` with a populated ref-count
table. -/
theorem c9_witness :
    findVirtualHostForDomain demoOtherConfig.virtual_hosts "svc.example.com" = none ∧
    (handleRouteConfig true "svc.example.com" demoResolverState demoOtherConfig).1.table =
      demoResolverState.table :=
  ⟨by decide,
   (c9_no_match_frame "svc.example.com" demoResolverState demoOtherConfig (by decide)).2.1⟩

/-! ### Claim C2 (the ref-count table invariant) -/

/-- The ref-count invariant holds for the empty (initial) table. -/
theorem refInv_nil : RefInv [] := by
  intro p hp
  cases hp

/-- `updateRef` preserves the invariant when the update function preserves
entry goodness. -/
theorem refInv_updateRef (t : RefTable) (n : String) (f : ClusterRef → ClusterRef)
    (h : RefInv t)
    (hf : ∀ e, ((e.inLastConfig = true ∨ 0 < e.refCount) ∧ 0 ≤ e.refCount) →
      (((f e).inLastConfig = true ∨ 0 < (f e).refCount) ∧ 0 ≤ (f e).refCount)) :
    RefInv (updateRef t n f) := by
  intro p hp
  obtain ⟨q, hq, hpq⟩ := List.mem_map.1 hp
  by_cases hk : q.1 = n
  · rw [if_pos hk] at hpq
    subst hpq
    exact hf q.2 (h q hq)
  · rw [if_neg hk] at hpq
    subst hpq
    exact h q hq

/-- `refCluster` preserves the ref-count invariant. -/
theorem refInv_refCluster (t : RefTable) (n : String) (h : RefInv t) :
    RefInv (refCluster t n) := by
  unfold refCluster
  cases lookupRef t n with
  | none => exact h
  | some e =>
    refine refInv_updateRef t n _ h ?_
    intro e' he'
    obtain ⟨-, h2⟩ := he'
    refine ⟨Or.inr ?_, ?_⟩
    · show 0 < e'.refCount + 1
      omega
    · show (0 : Int) ≤ e'.refCount + 1
      omega

/-- The mark-and-sweep loop preserves the ref-count invariant. -/
theorem refInv_markAndSweep (t : RefTable) (clusters : List String) (h : RefInv t) :
    RefInv (markAndSweep t clusters) := by
  intro p hp
  obtain ⟨q, hq, hfq⟩ := List.mem_filterMap.1 hp
  by_cases h1 : q.1 ∈ clusters
  · rw [if_pos h1] at hfq
    obtain rfl : q = p := by injection hfq
    exact h q hq
  · rw [if_neg h1] at hfq
    by_cases h2 : q.2.refCount = 0
    · rw [if_pos h2] at hfq
      cases hfq
    · rw [if_neg h2] at hfq
      obtain rfl : (q.1, { q.2 with inLastConfig := false }) = p := by injection hfq
      obtain ⟨-, hge⟩ := h q hq
      refine ⟨Or.inr ?_, ?_⟩
      · show 0 < q.2.refCount
        omega
      · show (0 : Int) ≤ q.2.refCount
        omega

/-- Adding (or re-marking) one cluster preserves the ref-count invariant. -/
theorem refInv_addCluster (t : RefTable) (n : String) (h : RefInv t) :
    RefInv (addCluster t n) := by
  unfold addCluster
  split
  · refine refInv_updateRef t n _ h ?_
    intro e he
    exact ⟨Or.inl rfl, he.2⟩
  · intro p hp
    rcases List.mem_append.1 hp with hp' | hp'
    · exact h p hp'
    · obtain rfl : p = (n, (⟨true, 0⟩ : ClusterRef)) := by simpa using hp'
      exact ⟨Or.inl rfl, le_refl 0⟩

/-- Reconciling the table against a cluster set preserves the invariant. -/
theorem refInv_reconcile (t : RefTable) (clusters : List String) (h : RefInv t) :
    RefInv (reconcile t clusters) := by
  unfold reconcile
  have haux : ∀ (cs : List String) (t' : RefTable), RefInv t' → RefInv (cs.foldl addCluster t') := by
    intro cs
    induction cs with
    | nil => intro t' h'; exact h'
    | cons c rest ih =>
      intro t' h'
      exact ih _ (refInv_addCluster t' c h')
  exact haux clusters _ (refInv_markAndSweep t clusters h)

/-- A full route-config application preserves the ref-count invariant. -/
theorem refInv_handleRouteConfig (experimentalRouting : Bool) (target : String)
    (st : ResolverState) (cfg : RouteConfiguration) (h : RefInv st.table) :
    RefInv (handleRouteConfig experimentalRouting target st cfg).1.table := by
  unfold handleRouteConfig
  by_cases hexp : experimentalRouting = true
  · rw [if_pos hexp]
    cases findVirtualHostForDomain cfg.virtual_hosts target with
    | none => exact h
    | some vh => exact refInv_reconcile _ _ h
  · rw [if_neg hexp]
    cases legacyRouteScan target cfg.virtual_hosts with
    | none => exact h
    | some c => exact h

/-- An unref (commit) of a cluster with an outstanding reference preserves the
ref-count invariant, including the re-application of the last route config
when the entry is deleted. -/
theorem refInv_unrefCluster (experimentalRouting : Bool) (target : String)
    (st : ResolverState) (n : String) (h : RefInv st.table)
    (houts : ∀ e ∈ lookupRef st.table n, 0 < e.refCount) :
    RefInv (unrefCluster experimentalRouting target st n).1.table := by
  unfold unrefCluster
  cases hl : lookupRef st.table n with
  | none => exact h
  | some e =>
    have he : 0 < e.refCount := houts e (by simp [hl])
    have hrem : RefInv (removeRef st.table n) := by
      intro p hp
      exact h p (List.mem_of_mem_filter hp)
    dsimp only
    by_cases hcond : e.inLastConfig = false ∧ e.refCount - 1 = 0
    · rw [if_pos hcond]
      cases st.latestRouteConfig with
      | none => exact hrem
      | some cfg => exact refInv_handleRouteConfig experimentalRouting target _ cfg hrem
    · rw [if_neg hcond]
      show RefInv (updateRef st.table n
        (fun _ => { inLastConfig := e.inLastConfig, refCount := e.refCount - 1 }))
      refine refInv_updateRef st.table n _ h ?_
      intro e' _
      constructor
      · rcases Bool.eq_false_or_eq_true e.inLastConfig with hb | hb
        · exact Or.inl hb
        · refine Or.inr ?_
          have hne : ¬ (e.refCount - 1 = 0) := fun h0 => hcond ⟨hb, h0⟩
          show 0 < e.refCount - 1
          omega
      · show (0 : Int) ≤ e.refCount - 1
        omega

/-- C2: outside a single atomic route-table application, the cluster
ref-count table always satisfies the existence invariant — every entry is in
the current table or has a strictly positive (hence non-negative) ref count,
so an entry with `inCurrentTable` false and count 0 is removed immediately —
starting from the empty table and preserved by `refCluster`, by every
`handleRouteConfig` reconciliation, and by every `unrefCluster` commit of an
in-flight call (whose entry, if present, holds the call's reference). -/
theorem c2_refcount_invariant :
    RefInv [] ∧
    (∀ (t : RefTable) (n : String), RefInv t → RefInv (refCluster t n)) ∧
    (∀ (experimentalRouting : Bool) (target : String) (st : ResolverState)
        (cfg : RouteConfiguration),
      RefInv st.table → RefInv (handleRouteConfig experimentalRouting target st cfg).1.table) ∧
    (∀ (experimentalRouting : Bool) (target : String) (st : ResolverState) (n : String),
      RefInv st.table → (∀ e ∈ lookupRef st.table n, 0 < e.refCount) →
      RefInv (unrefCluster experimentalRouting target st n).1.table) :=
  ⟨refInv_nil, refInv_refCluster, refInv_handleRouteConfig, refInv_unrefCluster⟩

/-- C2 witness: committing the last in-flight call on `cluster_old` (which
has left the current table) deletes its entry and re-applies the last config,
preserving the invariant. -/
theorem c2_witness :
    RefInv demoResolverState.table ∧
    RefInv (unrefCluster true "svc.example.com" demoResolverState "cluster_old").1.table :=
  ⟨by unfold RefInv; decide,
   c2_refcount_invariant.2.2.2 true "svc.example.com" demoResolverState "cluster_old"
     (by unfold RefInv; decide)
     (by
       intro e he
       have : lookupRef demoResolverState.table "cluster_old" =
           some ⟨false, 1⟩ := by decide
       rw [this] at he
       simp only [Option.mem_def, Option.some_inj] at he
       subst he
       decide)⟩

/-! ### Claim C5 (domain matcher: precedence, length, ties, short-circuit) -/

/-- Enum ranks are injective. -/
theorem matchType_rank_inj : ∀ a b : MatchType, a.rank = b.rank → a = b := by
  intro a b h
  revert h
  cases a <;> cases b <;> decide

/-- Every non-exact match type has positive rank. -/
theorem matchType_rank_pos : ∀ a : MatchType, a ≠ .EXACT_MATCH → 0 < a.rank := by
  intro a h
  revert h
  cases a <;> decide

/-- An exact domain match means the pattern is the target domain itself. -/
theorem domainMatch_exact (p d : String) (h : domainMatch .EXACT_MATCH p d = true) : d = p := by
  simpa [domainMatch] using h

/-- `specStep` written through `SpecCond`. -/
theorem specStep_eq_ite (domain : String) (s : ScanState) (c : VirtualHost × String) :
    specStep domain s c =
      if SpecCond domain s c then
        ⟨some c.1, domainPatternMatchType c.2, strLen c.2⟩
      else s := by
  simp only [specStep, SpecCond]

/-- A spec-side step keeps an exact best match exact. -/
theorem specStep_exact_stays (domain : String) (s : ScanState) (c : VirtualHost × String)
    (h : s.bestMatchType = .EXACT_MATCH) :
    (specStep domain s c).bestMatchType = .EXACT_MATCH := by
  rw [specStep_eq_ite]
  by_cases hc : SpecCond domain s c
  · rw [if_pos hc]
    show domainPatternMatchType c.2 = .EXACT_MATCH
    rcases hc.2 with hlt | ⟨heq, -⟩
    · rw [h] at hlt
      simp [MatchType.rank] at hlt
    · exact heq.trans h
  · rw [if_neg hc]
    exact h

/-- A spec-side step preserves the exact-length invariant. -/
theorem exactLenInv_specStep (domain : String) (s : ScanState) (c : VirtualHost × String)
    (h : ExactLenInv domain s) : ExactLenInv domain (specStep domain s c) := by
  rw [specStep_eq_ite]
  by_cases hc : SpecCond domain s c
  · rw [if_pos hc]
    intro hb
    have hbE : domainPatternMatchType c.2 = .EXACT_MATCH := hb
    have hm := hc.1
    rw [hbE] at hm
    have hd := domainMatch_exact _ _ hm
    show strLen c.2 = strLen domain
    rw [hd]
  · rw [if_neg hc]
    exact h

/-- From an exact best state the spec-side step changes nothing. -/
theorem specStep_absorb (domain : String) (s : ScanState) (c : VirtualHost × String)
    (hinv : ExactLenInv domain s) (h : s.bestMatchType = .EXACT_MATCH) :
    specStep domain s c = s := by
  rw [specStep_eq_ite]
  rw [if_neg]
  rintro ⟨hm, hlt | ⟨heq, hlen⟩⟩
  · rw [h] at hlt
    simp [MatchType.rank] at hlt
  · have hmE : domainPatternMatchType c.2 = .EXACT_MATCH := heq.trans h
    rw [hmE] at hm
    have hd := domainMatch_exact _ _ hm
    have hlenEq : s.longestMatch = strLen domain := hinv h
    rw [hlenEq, hd] at hlen
    exact lt_irrefl _ hlen

/-- The exact-length invariant is preserved along the spec-side fold. -/
theorem foldl_specStep_inv (domain : String) (cs : List (VirtualHost × String)) (s : ScanState)
    (h : ExactLenInv domain s) :
    ExactLenInv domain (cs.foldl (specStep domain) s) := by
  induction cs generalizing s with
  | nil => exact h
  | cons c rest ih => exact ih _ (exactLenInv_specStep domain s c h)

/-- From an exact best state the whole spec-side fold changes nothing. -/
theorem foldl_specStep_absorb (domain : String) (cs : List (VirtualHost × String))
    (s : ScanState) (hinv : ExactLenInv domain s) (h : s.bestMatchType = .EXACT_MATCH) :
    cs.foldl (specStep domain) s = s := by
  induction cs with
  | nil => rfl
  | cons c rest ih =>
    rw [List.foldl_cons, specStep_absorb domain s c hinv h]
    exact ih

/-- An exact best state persists along the spec-side fold. -/
theorem foldl_specStep_exact_stays (domain : String) (cs : List (VirtualHost × String))
    (s : ScanState) (h : s.bestMatchType = .EXACT_MATCH) :
    (cs.foldl (specStep domain) s).bestMatchType = .EXACT_MATCH := by
  induction cs generalizing s with
  | nil => exact h
  | cons c rest ih => exact ih _ (specStep_exact_stays domain s c h)

/-- Processing an exact-matching candidate drives the spec-side fold into an
exact best state for good. -/
theorem foldl_specStep_exact_hits (domain : String) (cs : List (VirtualHost × String))
    (s : ScanState) (c : VirtualHost × String) (hc : c ∈ cs)
    (ht : domainPatternMatchType c.2 = .EXACT_MATCH)
    (hm : domainMatch .EXACT_MATCH c.2 domain = true) :
    (cs.foldl (specStep domain) s).bestMatchType = .EXACT_MATCH := by
  induction cs generalizing s with
  | nil => cases hc
  | cons hd rest ih =>
    rcases List.mem_cons.1 hc with rfl | hc'
    · rw [List.foldl_cons]
      apply foldl_specStep_exact_stays
      by_cases hb : s.bestMatchType = .EXACT_MATCH
      · exact specStep_exact_stays domain s c hb
      · rw [specStep_eq_ite,
          if_pos ⟨by rw [ht]; exact hm, Or.inl (by rw [ht]; exact matchType_rank_pos _ hb)⟩]
        exact ht
    · rw [List.foldl_cons]
      exact ih _ hc'

/-- The code's per-pattern step equals the spec-side step. -/
theorem scanStep_eq_specStep (domain : String) (vh : VirtualHost) (s : ScanState) (p : String) :
    scanStep domain vh s p = specStep domain s (vh, p) := by
  rw [specStep_eq_ite]
  simp only [scanStep]
  by_cases h1 : (domainPatternMatchType p).rank > s.bestMatchType.rank
  · have hns : ¬ SpecCond domain s (vh, p) := by
      intro hc
      simp only [SpecCond] at hc
      rcases hc.2 with hlt | ⟨heq, -⟩
      · omega
      · rw [heq] at h1
        omega
    rw [if_pos h1, if_neg hns]
  · by_cases h2 : domainPatternMatchType p = s.bestMatchType ∧ strLen p ≤ s.longestMatch
    · have hns : ¬ SpecCond domain s (vh, p) := by
        intro hc
        simp only [SpecCond] at hc
        rcases hc.2 with hlt | ⟨-, hlen⟩
        · rw [h2.1] at hlt
          omega
        · have hle := h2.2
          omega
      rw [if_neg h1, if_pos h2, if_neg hns]
    · by_cases h3 : domainMatch (domainPatternMatchType p) p domain = true
      · have hps : SpecCond domain s (vh, p) := by
          simp only [SpecCond]
          refine ⟨h3, ?_⟩
          rcases Nat.lt_or_ge (domainPatternMatchType p).rank s.bestMatchType.rank with hlt | hge
          · exact Or.inl hlt
          · have heqr : (domainPatternMatchType p).rank = s.bestMatchType.rank := by omega
            have heq := matchType_rank_inj _ _ heqr
            refine Or.inr ⟨heq, ?_⟩
            by_contra hcon
            push_neg at hcon
            exact h2 ⟨heq, hcon⟩
        rw [if_neg h1, if_neg h2, if_pos h3, if_pos hps]
      · have hns : ¬ SpecCond domain s (vh, p) := by
          intro hc
          simp only [SpecCond] at hc
          exact h3 hc.1
        rw [if_neg h1, if_neg h2, if_neg h3, if_neg hns]

/-- The inner pattern loop equals the spec-side fold over this host's
candidates. -/
theorem scanPatterns_eq_foldl (domain : String) (vh : VirtualHost) (ps : List String)
    (s : ScanState) (hinv : ExactLenInv domain s) :
    scanPatterns domain vh ps s = (ps.map (fun p => (vh, p))).foldl (specStep domain) s := by
  induction ps generalizing s with
  | nil => rfl
  | cons p rest ih =>
    simp only [scanPatterns, List.map_cons, List.foldl_cons]
    rw [scanStep_eq_specStep]
    have hinv' := exactLenInv_specStep domain s (vh, p) hinv
    by_cases hb : (specStep domain s (vh, p)).bestMatchType = .EXACT_MATCH
    · rw [if_pos hb, foldl_specStep_absorb domain _ _ hinv' hb]
    · rw [if_neg hb]
      exact ih _ hinv'

/-- Flattened candidates of an appended host list. -/
theorem specCandidates_append (l1 l2 : List VirtualHost) :
    specCandidates (l1 ++ l2) = specCandidates l1 ++ specCandidates l2 := by
  induction l1 with
  | nil => rfl
  | cons vh rest ih =>
    simp [specCandidates, ih, List.append_assoc]

/-- Membership in the flattened candidate list. -/
theorem specCandidates_mem (l : List VirtualHost) (vh : VirtualHost) (p : String)
    (hvh : vh ∈ l) (hp : p ∈ vh.domains) : (vh, p) ∈ specCandidates l := by
  induction l with
  | nil => cases hvh
  | cons hd rest ih =>
    rcases List.mem_cons.1 hvh with rfl | hvh'
    · exact List.mem_append_left _ (List.mem_map.2 ⟨p, hp, rfl⟩)
    · exact List.mem_append_right _ (ih hvh')

/-- The outer host loop equals the spec-side fold over all candidates. -/
theorem scanVhosts_eq_foldl (domain : String) (l : List VirtualHost) (s : ScanState)
    (hinv : ExactLenInv domain s) :
    scanVhosts domain l s = (specCandidates l).foldl (specStep domain) s := by
  induction l generalizing s with
  | nil => rfl
  | cons vh rest ih =>
    simp only [scanVhosts, specCandidates, List.foldl_append]
    rw [scanPatterns_eq_foldl domain vh vh.domains s hinv]
    have hinv' : ExactLenInv domain
        ((vh.domains.map (fun p => (vh, p))).foldl (specStep domain) s) :=
      foldl_specStep_inv domain _ s hinv
    by_cases hb : ((vh.domains.map (fun p => (vh, p))).foldl
        (specStep domain) s).bestMatchType = .EXACT_MATCH
    · rw [if_pos hb, foldl_specStep_absorb domain _ _ hinv' hb]
    · rw [if_neg hb]
      exact ih _ hinv'

/-- The exact-length invariant of the initial scan state. -/
theorem exactLenInv_init (domain : String) :
    ExactLenInv domain ⟨none, .INVALID_MATCH, 0⟩ := by
  intro h
  cases h

/-- The code's domain matcher equals the spec-side best-match selection. -/
theorem findVhost_eq_spec (l : List VirtualHost) (domain : String) :
    findVirtualHostForDomain l domain = specBestVirtualHost l domain := by
  unfold findVirtualHostForDomain specBestVirtualHost
  rw [scanVhosts_eq_foldl domain l _ (exactLenInv_init domain)]

/-- Once some host in a prefix of the input carries an exact match for the
domain, appending further hosts cannot change the result. -/
theorem findVhost_shortCircuit (l1 l2 : List VirtualHost) (domain : String)
    (h : ∃ vh ∈ l1, ∃ p ∈ vh.domains, domainPatternMatchType p = .EXACT_MATCH ∧
      domainMatch .EXACT_MATCH p domain = true) :
    findVirtualHostForDomain (l1 ++ l2) domain = findVirtualHostForDomain l1 domain := by
  obtain ⟨vh, hvh, p, hp, ht, hm⟩ := h
  have hcand : (vh, p) ∈ specCandidates l1 := specCandidates_mem l1 vh p hvh hp
  rw [findVhost_eq_spec, findVhost_eq_spec]
  unfold specBestVirtualHost
  rw [specCandidates_append, List.foldl_append]
  have hinvMid : ExactLenInv domain
      ((specCandidates l1).foldl (specStep domain) ⟨none, .INVALID_MATCH, 0⟩) :=
    foldl_specStep_inv domain _ _ (exactLenInv_init domain)
  have hexMid := foldl_specStep_exact_hits domain (specCandidates l1)
    ⟨none, .INVALID_MATCH, 0⟩ (vh, p) hcand ht hm
  rw [foldl_specStep_absorb domain (specCandidates l2) _ hinvMid hexMid]

/-- C5: the domain matcher returns exactly the spec-side best match — the
virtual host whose matching pattern has the smallest match-type rank
(exact > suffix > prefix > universal), where within a match type the greater
character length wins and ties keep the first-seen pattern; the empty pattern
is invalid and invalid patterns never match; and the scan stops at the first
exact match: host lists appended after an exact match cannot change the
result. -/
theorem c5_domain_matcher :
    (∀ (virtualHostList : List VirtualHost) (domain : String),
      findVirtualHostForDomain virtualHostList domain =
        specBestVirtualHost virtualHostList domain) ∧
    domainPatternMatchType "" = .INVALID_MATCH ∧
    (∀ p h, domainMatch .INVALID_MATCH p h = false) ∧
    (∀ (l1 l2 : List VirtualHost) (domain : String),
      (∃ vh ∈ l1, ∃ p ∈ vh.domains, domainPatternMatchType p = .EXACT_MATCH ∧
        domainMatch .EXACT_MATCH p domain = true) →
      findVirtualHostForDomain (l1 ++ l2) domain = findVirtualHostForDomain l1 domain) :=
  ⟨findVhost_eq_spec, by decide, fun p h => rfl, findVhost_shortCircuit⟩

/-- C5 witness: the exact pattern `a.example.com` in the first host list
short-circuits past an appended suffix host. -/
theorem c5_witness :
    findVirtualHostForDomain ([demoExactVhost] ++ [demoSuffixVhost]) "a.example.com" =
      findVirtualHostForDomain [demoExactVhost] "a.example.com" :=
  c5_domain_matcher.2.2.2 [demoExactVhost] [demoSuffixVhost] "a.example.com"
    ⟨demoExactVhost, by decide, "a.example.com", by decide, by decide, by decide⟩

end GrpcXds
